import Mathlib

/-!
Shallow embedding of the golc chain/agent/provider-adapter core.

Conventions of the embedding:
* Go `map[string]K` values are modelled as association lists with
  first-match lookup; `m[k] = v` is `cmInsert`, which removes any previous
  binding, so map extensional content is preserved.  Go map iteration order
  is never observable in the embedded code paths (see the notes at the
  individual definitions).
* Go `(T, error)` results are `Except GoErr T`.
* Go strings are Lean `String`s; the character-level functions below work on
  `List Char` (`String.data`) and mirror the semantics of the Go standard
  library functions actually used by the sources (`strings.Split`,
  `strings.Contains`, `strings.TrimSpace`, `regexp` matching for the one
  pattern the agent uses, and `text/template` execution for the
  field-substitution fragment the templates use).
* `int32` token counters are `Int` combined with explicit two's-complement
  wrapping (`add32`).
-/

set_option autoImplicit false

namespace Golc

/-- Error values of the embedded code.  Each constructor corresponds to one
of the sentinel errors (or `fmt.Errorf` shapes) the sources produce. -/
inductive GoErr : Type where
  /-- `ErrInvalidInputValues`, wrapped with a message by `fmt.Errorf`. -/
  | invalidInputValues (msg : String)
  /-- `ErrInputValuesWrongType`. -/
  | inputValuesWrongType
  /-- `ErrUnableToParseOutput`, wrapped with the offending model output. -/
  | unableToParseOutput (msg : String)
  /-- `fmt.Errorf("unsupported provider: %s", ...)` from the Bedrock adapter. -/
  | unsupportedProvider (provider : String)
  /-- `fmt.Errorf("stop sequence key name for provider %s is not supported", ...)`. -/
  | stopKeyNotSupported (provider : String)
  /-- Any other error coming from an external collaborator (client, decoder). -/
  | external (msg : String)
deriving DecidableEq

mutual
/-- A Go `any` value as it flows through `ChainValues`
(`map[string]any`): strings, integers, slices, nested maps, and
`[]golc.Document` payloads. -/
inductive GoVal : Type where
  | str (s : String)
  | int (n : Int)
  | list (xs : List GoVal)
  | obj (entries : List (String × GoVal))
  | docs (ds : List GoDoc)

/-- `golc.Document { PageContent string; Metadata map[string]any }`. -/
inductive GoDoc : Type where
  | mk (pageContent : String) (metadata : List (String × GoVal))
end

def GoDoc.pageContent : GoDoc → String
  | .mk p _ => p

def GoDoc.metadata : GoDoc → List (String × GoVal)
  | .mk _ m => m

/-- `golc.ChainValues` / `schema.ChainValues`: a string-keyed map of `any`. -/
abbrev CMap := List (String × GoVal)

/-- Map lookup, `v, ok := m[k]`. -/
def cmLookup (k : String) : CMap → Option GoVal
  | [] => none
  | (k', v) :: m => if k' = k then some v else cmLookup k m

/-- Removal of every binding of a key (used by map update and by
`util.OmitByKeys`). -/
def cmErase (k : String) : CMap → CMap
  | [] => []
  | (k', v) :: m => if k' = k then cmErase k m else (k', v) :: cmErase k m

/-- Map update, `m[k] = v`: the new binding replaces any previous one. -/
def cmInsert (k : String) (v : GoVal) (m : CMap) : CMap :=
  (k, v) :: cmErase k m

/-- Left-biased union: every binding of `hi` is written over `lo`
(the order among distinct keys of a Go map range is unobservable here
because distinct-key insertions commute extensionally). -/
def cmUnion (hi lo : CMap) : CMap :=
  hi.foldl (fun acc kv => cmInsert kv.1 kv.2 acc) lo

/-! ### Character-level string helpers -/

/-- `M` occurs as a substring of `cs` starting at index `i`. -/
def occursAt (M cs : List Char) (i : Nat) : Prop :=
  M.isPrefixOf (cs.drop i)

/-- `strings.Contains` (for a non-empty substring): scan every start
position. -/
def containsSub (M : List Char) : List Char → Bool
  | [] => M.isPrefixOf []
  | c :: cs => M.isPrefixOf (c :: cs) || containsSub M cs

/-- Index of the last occurrence of `M` (preferring occurrences further
right), `none` when `M` does not occur. -/
def lastOccAux (M : List Char) : List Char → Option Nat
  | [] => if M.isPrefixOf ([] : List Char) then some 0 else none
  | c :: cs =>
    match lastOccAux M cs with
    | some i => some (i + 1)
    | none => if M.isPrefixOf (c :: cs) then some 0 else none

/-- `strings.Split(s, sep)` for non-empty `sep`, written as the scanning
loop: `acc` holds the (reversed) characters of the piece being built, and
the first argument is structural fuel that stays at least the length of
the remaining text (each step consumes at least one character, so fuel
equal to the initial length suffices and the fuel-exhausted branch is
unreachable). -/
def splitAuxF (M : List Char) : Nat → List Char → List Char → List (List Char)
  | _, acc, [] => [acc.reverse]
  | 0, acc, cs => [acc.reverse ++ cs]
  | fuel + 1, acc, c :: cs =>
    if M.isPrefixOf (c :: cs) then
      acc.reverse :: splitAuxF M fuel [] (List.drop (M.length - 1) cs)
    else
      splitAuxF M fuel (c :: acc) cs

/-- `strings.Split(s, sep)`. -/
def splitSub (M cs : List Char) : List (List Char) :=
  splitAuxF M cs.length [] cs

/-- The whitespace class of Go's `regexp` `\s`: `[\t\n\f\r ]`. -/
def reSpace (c : Char) : Bool :=
  c = ' ' || c = '\t' || c = '\n' || c = '\x0c' || c = '\r'

/-- `unicode.IsSpace` restricted to the Latin-1 range (the inputs of the
embedded code are ASCII): `\t \n \v \f \r space NEL NBSP`. -/
def goSpace (c : Char) : Bool :=
  c = ' ' || c = '\t' || c = '\n' || c = '\x0b' || c = '\x0c' || c = '\r'
    || c = '\x85' || c = '\xa0'

/-- `strings.TrimSpace`. -/
def goTrimChars (cs : List Char) : List Char :=
  ((cs.dropWhile goSpace).reverse.dropWhile goSpace).reverse

/-- `strings.TrimSpace` on `String`. -/
def goTrim (s : String) : String :=
  String.mk (goTrimChars s.data)

/-! ### Prompt templates (`prompt.Formatter`, src/unnamed/part_005)

The formatter wraps Go `text/template`.  The templates of this repository
only use plain field actions (`\x7b\x7b.name\x7d\x7d`), so the embedding
models exactly that fragment: a parsed template is a list of literal-text
and field nodes, and execution follows `text/template` with its default
`missingkey` behaviour (a key absent from the data map renders as the
literal `<no value>` and execution succeeds). -/

/-- A node of a parsed template: literal text or a field action. -/
inductive TplNode : Type where
  | text (s : String)
  | field (name : String)
deriving DecidableEq

/-- Prepend a character to a node list, merging into a leading text node
(so that maximal literal runs form one node, as in `text/template`). -/
def consText (c : Char) : List TplNode → List TplNode
  | .text s :: ns => .text (String.mk (c :: s.data)) :: ns
  | ns => .text (String.mk [c]) :: ns

/-- Parse a template string into nodes.  Only plain field actions are in
the fragment; any other action (for example a function call such as
`\x7b\x7bquery\x7d\x7d`) is a parse failure, which in `NewFormatter`
(`template.Must`) is a panic at construction time. -/
def parseTpl : List Char → Option (List TplNode)
  | [] => some []
  | '\x7b' :: '\x7b' :: rest =>
    match rest with
    | '.' :: rest' =>
      let name := rest'.takeWhile (fun c => c ≠ '\x7d')
      match h : rest'.drop name.length with
      | '\x7d' :: '\x7d' :: rest'' =>
        (parseTpl rest'').map (fun ns => .field (String.mk name) :: ns)
      | _ => none
    | _ => none
  | c :: rest => (parseTpl rest).map (consText c)
termination_by cs => cs.length
decreasing_by
  · have hlen := congrArg List.length h
    simp only [List.length_drop, List.length_cons] at hlen
    simp only [List.length_cons]
    omega
  · simp only [List.length_cons]
    omega

/-- How `text/template` prints a data value (`%v`-style) for the value
shapes that can reach a field action here; composite values never do in
the embedded code paths. -/
def printGoVal : GoVal → String
  | .str s => s
  | .int n => toString n
  | _ => "<composite>"

/-- Execution of a parsed template against a data map: `text/template`
`Execute` with the default `missingkey` option, under which a missing map
key prints as `<no value>` and causes no error. -/
def renderTpl : List TplNode → CMap → String
  | [], _ => ""
  | .text s :: ns, m => s ++ renderTpl ns m
  | .field x :: ns, m =>
    (match cmLookup x m with
     | some v => printGoVal v
     | none => "<no value>") ++ renderTpl ns m

/-- `Formatter.Render` (src/unnamed/part_005, lines 27-34): execute the
parsed template; in the field-action fragment execution always succeeds. -/
def formatterRender (nodes : List TplNode) (values : CMap) : Except GoErr String :=
  .ok (renderTpl nodes values)

/-- Modelled from the spec: `prompt.Template.InputVariables` /
`RequiredFields` is not under src/ (only `Formatter.Fields` is); per the
spec it exposes "the set of variable names it requires", i.e. the field
names referenced by the template. -/
def inputVariables (nodes : List TplNode) : List String :=
  nodes.filterMap (fun n => match n with
    | .field x => some x
    | _ => none)

/-! ### Agent output parsing (`ZeroShotReactDescriptionAgent`,
src/unnamed/part_002)

The parser first looks for the terminal marker `Final Answer:`; otherwise
it applies the regular expression
`Action:\s*(.+)\s*Action Input:\s*(.+)` with Go `regexp` semantics:
unanchored leftmost start, greedy quantifiers explored longest-first
(backtracking order), `.` not matching a newline, `\s` the class
`[\t\n\f\r ]`. -/

/-- Length of the maximal `\s*` prefix. -/
def wsCount : List Char → Nat
  | [] => 0
  | c :: cs => if reSpace c then wsCount cs + 1 else 0

/-- Length of the maximal `.+`-eligible prefix (`.` excludes newline). -/
def dotCount : List Char → Nat
  | [] => 0
  | c :: cs => if c = '\n' then 0 else dotCount cs + 1

/-- Backtracking for `\s*`: try consuming `n` whitespace characters, then
`n - 1`, ... down to `0` (greedy preference), continuing with `k`. -/
def tryWs (k : List Char → Option (List String)) (cs : List Char) : Nat → Option (List String)
  | 0 => k cs
  | n + 1 =>
    match k (cs.drop (n + 1)) with
    | some gs => some gs
    | none => tryWs k cs n

/-- Backtracking for a `(.+)` capture group: try capturing `n` characters
down to `1` (greedy preference), prepending the capture to the groups
produced by the continuation `k`. -/
def tryGrp (k : List Char → Option (List String)) (cs : List Char) : Nat → Option (List String)
  | 0 => none
  | n + 1 =>
    match k (cs.drop (n + 1)) with
    | some gs => some (String.mk (cs.take (n + 1)) :: gs)
    | none => tryGrp k cs n

/-- A token of the (linear) regular expression. -/
inductive RTok : Type where
  | lit (s : List Char)
  | ws
  | grp

/-- Match a token sequence at the current position (the match may end
before the end of the input, as an unanchored Go regexp match does),
returning the captured groups. -/
def matchToks : List RTok → List Char → Option (List String)
  | [] => fun _ => some []
  | .lit s :: ts => fun cs =>
    if s.isPrefixOf cs then matchToks ts (cs.drop s.length) else none
  | .ws :: ts => fun cs => tryWs (fun r => matchToks ts r) cs (wsCount cs)
  | .grp :: ts => fun cs => tryGrp (fun r => matchToks ts r) cs (dotCount cs)

/-- `regexp.FindStringSubmatch`: try every start position left to right. -/
def findMatch (toks : List RTok) : List Char → Option (List String)
  | [] => matchToks toks []
  | c :: cs =>
    match matchToks toks (c :: cs) with
    | some gs => some gs
    | none => findMatch toks cs

/-- The token form of `Action:\s*(.+)\s*Action Input:\s*(.+)`. -/
def mrklToks : List RTok :=
  [.lit "Action:".data, .ws, .grp, .ws, .lit "Action Input:".data, .ws, .grp]

/-- The number of capture groups of a token sequence. -/
def countGrp : List RTok → Nat
  | [] => 0
  | .grp :: ts => countGrp ts + 1
  | .lit _ :: ts => countGrp ts
  | .ws :: ts => countGrp ts

/-- `golc.AgentAction`. -/
structure AgentAction : Type where
  tool : String
  toolInput : String
  log : String
deriving DecidableEq

/-- `golc.AgentFinish`. -/
structure AgentFinish : Type where
  returnValues : CMap
  log : String

/-- `golc.AgentStep`. -/
structure AgentStep : Type where
  action : AgentAction
  observation : String

/-- The terminal marker constant `finalAnswerAction`. -/
def finalAnswerAction : String := "Final Answer:"

/-- `ZeroShotReactDescriptionAgent.parseOutput`
(src/unnamed/part_002, lines 131-153).  `outputKey` is the agent's
configured output key (default `"output"`). -/
def parseOutput (outputKey output : String) :
    Except GoErr (List AgentAction × Option AgentFinish) :=
  if containsSub finalAnswerAction.data output.data then
    .ok ([], some
      { returnValues := [(outputKey, .str
          (String.mk ((splitSub finalAnswerAction.data output.data).getLastD [])))]
        log := output })
  else
    match findMatch mrklToks output.data with
    | some (m1 :: m2 :: _) =>
      .ok ([{ tool := goTrim m1, toolInput := goTrim m2, log := output }], none)
    | _ => .error (.unableToParseOutput output)

/-- `ZeroShotReactDescriptionAgent.constructScratchPad`
(src/unnamed/part_002, lines 121-129). -/
def constructScratchPad (steps : List AgentStep) : String :=
  steps.foldl
    (fun scratchPad step =>
      scratchPad ++ step.action.log ++ "\nObservation: " ++ step.observation ++ "\nThought:")
    ""

/-- The first half of `Plan` (src/unnamed/part_002, lines 78-84): the full
input map handed to the chain call, with the scratchpad under
`"agentScratchpad"`. -/
def planFullInputs (inputs : List (String × String)) (steps : List AgentStep) : CMap :=
  cmInsert "agentScratchpad" (.str (constructScratchPad steps))
    (inputs.foldl (fun m kv => cmInsert kv.1 (.str kv.2) m) [])

/-! ### RefineDocumentsChain (src/chain/refine_documents.go)

The two sub-chains appear only through `Predict`, which maps a value map
to an answer string; they are therefore parameters
`initP refineP : CMap → Except GoErr String` (the "deterministic
sub-chains").  `util.CopyMap` is the identity under value semantics and
`util.OmitByKeys(values, [inputKey])` is `cmErase inputKey values`. -/

/-- `RefineDocumentsOptions` with the defaults set by
`NewRefineDocumentsChain`: the document prompt is the parsed form of
`\x7b\x7b.pageContent\x7d\x7d`. -/
structure RefineOpts : Type where
  inputKey : String
  documentVariableName : String
  initialResponseName : String
  outputKey : String
  documentPrompt : List TplNode

/-- The defaults of `NewRefineDocumentsChain` (lines 27-53). -/
def refineDefaultOpts : RefineOpts :=
  { inputKey := "inputDocuments"
    documentVariableName := "context"
    initialResponseName := "existingAnswer"
    outputKey := "text"
    documentPrompt := [.field "pageContent"] }

/-- The `docInfo` map: `pageContent` first, then every metadata entry
written over it (a metadata key `pageContent` therefore wins; distinct-key
writes commute, so Go map range order is unobservable). -/
def mkDocInfo (d : GoDoc) : CMap :=
  d.metadata.foldl (fun m kv => cmInsert kv.1 kv.2 m)
    (cmInsert "pageContent" (.str d.pageContent) [])

/-- `constructInitialInputs` (lines 99-118): render the document prompt on
`docInfo` and bind the result under the document variable name over the
`rest` map. -/
def constructInitialInputs (opts : RefineOpts) (d : GoDoc) (rest : CMap) :
    Except GoErr CMap := do
  let docText ← formatterRender opts.documentPrompt (mkDocInfo d)
  .ok (cmInsert opts.documentVariableName (.str docText) rest)

/-- `constructRefineInputs` (lines 120-139): additionally bind the running
answer under the initial-response name. -/
def constructRefineInputs (opts : RefineOpts) (d : GoDoc) (lastResponse : String)
    (rest : CMap) : Except GoErr CMap := do
  let docText ← formatterRender opts.documentPrompt (mkDocInfo d)
  .ok (cmInsert opts.initialResponseName (.str lastResponse)
        (cmInsert opts.documentVariableName (.str docText) rest))

/-- The `for i := 1; ...` loop of `RefineDocumentsChain.call`
(lines 82-92), over the remaining documents. -/
def refineLoop (refineP : CMap → Except GoErr String) (opts : RefineOpts)
    (rest : CMap) : String → List GoDoc → Except GoErr String
  | res, [] => .ok res
  | res, d :: ds => do
    let refineInputs ← constructRefineInputs opts d res rest
    let res' ← refineP refineInputs
    refineLoop refineP opts rest res' ds

/-- `RefineDocumentsChain.call` (lines 55-97). -/
def refineCall (initP refineP : CMap → Except GoErr String) (opts : RefineOpts)
    (values : CMap) : Except GoErr CMap :=
  match cmLookup opts.inputKey values with
  | none => .error (.invalidInputValues ("no value for inputKey " ++ opts.inputKey))
  | some input =>
    match input with
    | .docs [] => .error (.invalidInputValues "documents slice has no elements")
    | .docs (d :: ds) =>
      let rest := cmErase opts.inputKey values
      (do
        let initialInputs ← constructInitialInputs opts d rest
        let res ← initP initialInputs
        let res' ← refineLoop refineP opts rest res ds
        .ok [(opts.outputKey, GoVal.str res')])
    | _ => .error .inputValuesWrongType

/-- The claim's reading of the refine composition, written as a left fold:
the initial sub-chain on the first document's rendered inputs, then for
each subsequent document the refine sub-chain on that document's rendered
inputs plus the previous running answer, in the supplied order. -/
def manualRefineFold (initP refineP : CMap → Except GoErr String) (opts : RefineOpts)
    (rest : CMap) (d0 : GoDoc) (ds : List GoDoc) : Except GoErr String := do
  let a0 ← constructInitialInputs opts d0 rest >>= initP
  ds.foldlM (fun acc d => constructRefineInputs opts d acc rest >>= refineP) a0

/-! ### The generic chain-call protocol and the LLM chain

`chain.Call` — the package-level entry point that every caller (for
example `Plan` in src/unnamed/part_002, line 86) uses to invoke a chain —
is not under src/. -/

/-- Modelled from the spec: a chain as seen by the generic call protocol
of §4.4 — its declared input keys, an optional memory load, and the
chain-specific transformation (which is what invokes the underlying
model). -/
structure ChainM : Type where
  inputKeys : List String
  memoryLoad : Option (CMap → CMap)
  run : CMap → Except GoErr CMap

/-- The first declared input key missing from the supplied values. -/
def firstMissingKey (keys : List String) (inputs : CMap) : Option String :=
  keys.find? (fun k => (cmLookup k inputs).isNone)

/-- Modelled from the spec: the generic `chain.Call` protocol (§4.4):
validate that every declared input key is present (a missing key is an
`InvalidInputValues` error naming it), merge memory-loaded values with
precedence over caller-supplied ones, then execute the chain-specific
transformation.  The second component counts how many times the
transformation ran. -/
def chainCall (c : ChainM) (inputs : CMap) : Except GoErr CMap × Nat :=
  match firstMissingKey c.inputKeys inputs with
  | some k => (.error (.invalidInputValues ("missing key in input values: " ++ k)), 0)
  | none =>
    let full :=
      match c.memoryLoad with
      | none => inputs
      | some load => cmUnion (load inputs) inputs
    (c.run full, 1)

/-- `LLMChain` as a `ChainM` (src/chain/refine_documents.go, lines
184-230): its input keys are the prompt template's variables
(`InputKeys()` returns `prompt.InputVariables()`), and its transformation
renders the prompt, invokes the model `llm` on the rendered string
(`FormatPrompt` / `model.GeneratePrompt` are not under src/; modelled from
the spec as template rendering followed by one model call), and returns
the trimmed top generation under the output key. -/
def llmChainM (llm : String → String) (tplNodes : List TplNode) (outputKey : String) :
    ChainM :=
  { inputKeys := inputVariables tplNodes
    memoryLoad := none
    run := fun inputs =>
      .ok [(outputKey, GoVal.str (goTrim (llm (renderTpl tplNodes inputs))))] }

/-! ### The Simple tokenizer and the models that install it
(src/unnamed/part_004; src/model/llm/sagemaker_endpoint.go, first two
segments) -/

/-- `golc.ChatMessage` (tagged text; the tag does not matter to the
tokenizer). -/
structure ChatMessageM : Type where
  type : String
  text : String

/-- `schema.Tokenizer` as a record of its three methods. -/
structure TokenizerM : Type where
  getTokenIDs : String → Except GoErr (List Int)
  getNumTokens : String → Except GoErr Int
  getNumTokensFromMessage : List ChatMessageM → Except GoErr Int

/-- `tokenizer.Simple` (src/unnamed/part_004): every method returns the
zero answer and no error (a Go `nil` slice is modelled as `[]`). -/
def simpleTokenizer : TokenizerM :=
  { getTokenIDs := fun _ => .ok []
    getNumTokens := fun _ => .ok 0
    getNumTokensFromMessage := fun _ => .ok 0 }

/-- The tokenizer-relevant part of `SagemakerEndpoint`. -/
structure SagemakerEndpointM : Type where
  tokenizer : TokenizerM
  endpointName : String

/-- `NewSagemakerEndpoint` (lines 74-88): unconditionally installs
`tokenizer.NewSimple()` (the client and content handler are external
collaborators and do not affect the tokenizer). -/
def newSagemakerEndpoint (endpointName : String) : SagemakerEndpointM :=
  { tokenizer := simpleTokenizer, endpointName := endpointName }

/-- The tokenizer-relevant part of the `Cohere` LLM. -/
structure CohereM : Type where
  tokenizer : TokenizerM
  model : String

/-- `NewCohere` (lines 161-183): installs `tokenizer.NewSimple()` and the
default model `"medium"` unless overridden (client creation is an external
collaborator; its failure path does not change the installed tokenizer,
so the success path is modelled). -/
def newCohere (modelOverride : Option String) : CohereM :=
  { tokenizer := simpleTokenizer
    model := match modelOverride with
      | some m => m
      | none => "medium" }

/-! ### The Bedrock provider adapter (src/model/llm/sagemaker_endpoint.go,
third segment)

`json.Marshal` / `json.Unmarshal` are the external `encoding/json`
boundary: `PrepareInput` returns the body *value* it builds (its
serialization is external), and the per-provider response/stream-chunk
decoders (unmarshal plus field selection on raw bytes) are supplied as
function parameters. -/

/-- `providerStopSequenceKeyMap` (lines 238-244). -/
def providerStopSequenceKeyMap : List (String × String) :=
  [("anthropic", "stop_sequences"),
   ("amazon", "stopSequences"),
   ("ai21", "stop_sequences"),
   ("cohere", "stop_sequences"),
   ("mistral", "stop")]

/-- Lookup in a plain string-to-string map. -/
def ssLookup (k : String) : List (String × String) → Option String
  | [] => none
  | (k', v) :: m => if k' = k then some v else ssLookup k m

/-- `BedrockInputOutputAdapter` (lines 247-256): the constructor stores
the provider identifier and cannot fail. -/
structure BedrockIOAdapterM : Type where
  provider : String

/-- `NewBedrockInputOutputAdapter` (lines 252-256). -/
def newBedrockInputOutputAdapter (provider : String) : BedrockIOAdapterM :=
  { provider := provider }

/-- `BedrockInputOutputAdapter.PrepareInput` (lines 259-299): build the
provider-specific body value (its `json.Marshal` serialization is the
external boundary). -/
def prepareInput (provider prompt : String) (modelParams : CMap) : Except GoErr GoVal :=
  match provider with
  | "ai21" => .ok (.obj (cmInsert "prompt" (.str prompt) modelParams))
  | "amazon" => .ok (.obj [("inputText", .str prompt),
                           ("textGenerationConfig", .obj modelParams)])
  | "anthropic" => .ok (.obj (cmInsert "messages"
      (.list [.obj [("role", .str "user"), ("content", .str prompt)]]) modelParams))
  | "cohere" => .ok (.obj (cmInsert "prompt" (.str prompt) modelParams))
  | "cohere-r" => .ok (.obj (cmInsert "message" (.str prompt) modelParams))
  | "meta" => .ok (.obj (cmInsert "prompt" (.str prompt) modelParams))
  | "mistral" => .ok (.obj (cmInsert "prompt"
      (.str ("<s>[INST] " ++ prompt ++ " [/INST]")) modelParams))
  | _ => .error (.unsupportedProvider provider)

/-- The per-provider response decoders of `PrepareOutput` (unmarshal of
the raw response plus selection of the text field, e.g.
`output.Completions[0].Data.Text` for ai21); each stands for the body of
one `case` arm after its `switch` dispatch. -/
structure BedrockOutputDecoders : Type where
  ai21 : String → Except GoErr String
  amazon : String → Except GoErr String
  anthropic : String → Except GoErr String
  cohere : String → Except GoErr String
  cohereR : String → Except GoErr String
  meta : String → Except GoErr String
  mistral : String → Except GoErr String

/-- `BedrockInputOutputAdapter.PrepareOutput` (lines 369-423): dispatch on
the provider; an unknown provider is an `unsupported provider` error. -/
def prepareOutput (dec : BedrockOutputDecoders) (provider : String) (response : String) :
    Except GoErr String :=
  match provider with
  | "ai21" => dec.ai21 response
  | "amazon" => dec.amazon response
  | "anthropic" => dec.anthropic response
  | "cohere" => dec.cohere response
  | "cohere-r" => dec.cohereR response
  | "meta" => dec.meta response
  | "mistral" => dec.mistral response
  | _ => .error (.unsupportedProvider provider)

/-- The `streamOutput` record (lines 484-488): a token fragment and the
per-chunk usage deltas (`int32` values from the invocation metrics). -/
structure StreamOut : Type where
  token : String
  inputTokens : Int
  outputTokens : Int

/-- The per-provider stream-chunk decoders of `PrepareStreamOutput`
(note: the stream switch has no `ai21` arm). -/
structure BedrockStreamDecoders : Type where
  amazon : String → Except GoErr StreamOut
  anthropic : String → Except GoErr StreamOut
  cohere : String → Except GoErr StreamOut
  cohereR : String → Except GoErr StreamOut
  meta : String → Except GoErr StreamOut
  mistral : String → Except GoErr StreamOut

/-- `BedrockInputOutputAdapter.PrepareStreamOutput` (lines 491-554). -/
def prepareStreamOutput (dec : BedrockStreamDecoders) (provider : String) (chunk : String) :
    Except GoErr StreamOut :=
  match provider with
  | "amazon" => dec.amazon chunk
  | "anthropic" => dec.anthropic chunk
  | "cohere" => dec.cohere chunk
  | "cohere-r" => dec.cohereR chunk
  | "meta" => dec.meta chunk
  | "mistral" => dec.mistral chunk
  | _ => .error (.unsupportedProvider provider)

/-- Two's-complement wrap of an integer into `int32`. -/
def wrap32 (n : Int) : Int :=
  (n + 2 ^ 31) % 2 ^ 32 - 2 ^ 31

/-- `int32` addition. -/
def add32 (a b : Int) : Int :=
  wrap32 (a + b)

/-- The Bedrock runtime client (external collaborator): a blocking
invocation returning raw response bytes, and a streaming invocation
returning the raw chunk payloads in arrival order. -/
structure BedrockClientM : Type where
  invokeModel : GoVal → Except GoErr String
  invokeStream : GoVal → Except GoErr (List String)

/-- One generation of a `schema.ModelResult`. -/
structure GenerationM : Type where
  text : String
deriving DecidableEq

/-- `schema.ModelResult`. -/
structure ModelResultM : Type where
  generations : List GenerationM
  llmOutput : CMap

/-- `strings.Split(modelID, ".")[0]`. -/
def firstDotSegment (modelID : String) : String :=
  String.mk (modelID.data.takeWhile (fun c => c ≠ '.'))

/-- `Bedrock.getProvider` (lines 1214-1222), with the `command-r`
special case. -/
def getProvider (modelID : String) : String :=
  let provider := firstDotSegment modelID
  if provider = "cohere" && containsSub "command-r".data modelID.data then
    provider ++ "-r"
  else
    provider

/-- The event loop of the streaming branch of `Bedrock.Generate`
(lines 1140-1164): decode each chunk, append its token and add its usage
deltas (`int32` arithmetic); the per-token observer is the default
`NoopManager`, which never errors. -/
def streamFold (dec : BedrockStreamDecoders) (provider : String) :
    List String → List String × Int × Int → Except GoErr (List String × Int × Int)
  | [], acc => .ok acc
  | ev :: evs, acc => do
    let out ← prepareStreamOutput dec provider ev
    streamFold dec provider evs
      (acc.1 ++ [out.token], add32 acc.2.1 out.inputTokens, add32 acc.2.2 out.outputTokens)

/-- `Bedrock.Generate` (lines 1092-1188).  `modelParams` are the
constructed model's parameters, `streamF` the `Stream` option, `stop` the
per-call stop sequences. -/
def bedrockGenerate (sdec : BedrockStreamDecoders) (odec : BedrockOutputDecoders)
    (client : BedrockClientM) (modelID : String) (modelParams : CMap) (streamF : Bool)
    (prompt : String) (stop : List String) : Except GoErr ModelResultM := do
  let provider := getProvider modelID
  let params ←
    if stop = ([] : List String) then
      pure modelParams
    else
      match ssLookup provider providerStopSequenceKeyMap with
      | none => Except.error (.stopKeyNotSupported provider)
      | some key => pure (cmInsert key (.list (stop.map .str)) modelParams)
  let body ← prepareInput provider prompt params
  if streamF then do
    let events ← client.invokeStream body
    let acc ← streamFold sdec provider events ([], 0, 0)
    .ok { generations := [{ text := String.join acc.1 }]
          llmOutput := [("input_tokens", .int acc.2.1), ("output_tokens", .int acc.2.2)] }
  else do
    let response ← client.invokeModel body
    let completion ← prepareOutput odec provider response
    .ok { generations := [{ text := completion }], llmOutput := [] }

/-! ### Remaining auxiliary definitions used by the statements -/

/-- Whether an `Except` result is a success. -/
def exIsOk {α : Type} : Except GoErr α → Bool
  | .ok _ => true
  | .error _ => false

/-- The scratchpad contribution of one agent step. -/
def stepFmt (step : AgentStep) : String :=
  step.action.log ++ "\nObservation: " ++ step.observation ++ "\nThought:"

/-- `M` has no non-trivial border: no proper non-empty suffix of `M` is
also a prefix of `M`.  (The marker `Final Answer:` has this property, so
its occurrences in any text are pairwise disjoint and the scanning
`strings.Split` passes through the absolute last occurrence.) -/
def borderless (M : List Char) : Prop :=
  ∀ t, t < M.length → 0 < t → M.drop t ≠ M.take (M.length - t)

/-- The providers of the `PrepareInput` / `PrepareOutput` switches. -/
def bedrockSupportedProviders : List String :=
  ["ai21", "amazon", "anthropic", "cohere", "cohere-r", "meta", "mistral"]

/-- A decoding function that never fabricates an `unsupported provider`
error (true of every `json.Unmarshal`-plus-field-selection arm). -/
def noUnsupportedErr (f : String → Except GoErr String) : Prop :=
  ∀ x p, f x ≠ .error (.unsupportedProvider p)

/-- All seven response decoders are `unsupported provider`-free. -/
def goodOutputDecoders (dec : BedrockOutputDecoders) : Prop :=
  noUnsupportedErr dec.ai21 ∧ noUnsupportedErr dec.amazon ∧ noUnsupportedErr dec.anthropic
    ∧ noUnsupportedErr dec.cohere ∧ noUnsupportedErr dec.cohereR
    ∧ noUnsupportedErr dec.meta ∧ noUnsupportedErr dec.mistral

/-- A trivial stream-decoder instance (for concrete evaluations). -/
def trivialStreamDecoders : BedrockStreamDecoders :=
  { amazon := fun _ => .ok { token := "", inputTokens := 0, outputTokens := 0 }
    anthropic := fun _ => .ok { token := "", inputTokens := 0, outputTokens := 0 }
    cohere := fun _ => .ok { token := "", inputTokens := 0, outputTokens := 0 }
    cohereR := fun _ => .ok { token := "", inputTokens := 0, outputTokens := 0 }
    meta := fun _ => .ok { token := "", inputTokens := 0, outputTokens := 0 }
    mistral := fun _ => .ok { token := "", inputTokens := 0, outputTokens := 0 } }

/-- A trivial response-decoder instance (for concrete evaluations). -/
def trivialOutputDecoders : BedrockOutputDecoders :=
  { ai21 := fun _ => .ok "", amazon := fun _ => .ok "", anthropic := fun _ => .ok ""
    cohere := fun _ => .ok "", cohereR := fun _ => .ok "", meta := fun _ => .ok ""
    mistral := fun _ => .ok "" }

/-- A trivial client instance (for concrete evaluations). -/
def trivialClient : BedrockClientM :=
  { invokeModel := fun _ => .ok "", invokeStream := fun _ => .ok [] }

/-- A stream decoder whose `amazon` arm echoes the chunk bytes as the
token with fixed usage deltas (for concrete stream evaluations). -/
def demoStreamDecoders : BedrockStreamDecoders :=
  { trivialStreamDecoders with
    amazon := fun s => .ok { token := s, inputTokens := 5, outputTokens := 1 } }

/-- A client that streams the two chunks `"Hel"`, `"lo"`. -/
def demoStreamClient : BedrockClientM :=
  { invokeModel := fun _ => .ok "", invokeStream := fun _ => .ok ["Hel", "lo"] }

/-- A deterministic initial sub-chain: answers `I(<context>)`. -/
def demoInitPredict (m : CMap) : Except GoErr String :=
  match cmLookup "context" m with
  | some (.str c) => .ok ("I(" ++ c ++ ")")
  | _ => .error .inputValuesWrongType

/-- A deterministic refine sub-chain: answers
`R(<existingAnswer>,<context>)`. -/
def demoRefinePredict (m : CMap) : Except GoErr String :=
  match cmLookup "context" m, cmLookup "existingAnswer" m with
  | some (.str c), some (.str a) => .ok ("R(" ++ a ++ "," ++ c ++ ")")
  | _, _ => .error .inputValuesWrongType

/-- A concrete three-document input value map. -/
def demoDocsValues : CMap :=
  [("inputDocuments", GoVal.docs [.mk "DocA" [], .mk "DocB" [], .mk "DocC" []])]

/-! ## Theorems -/

/-! ### Map and string helper lemmas -/

theorem cmLookup_insert_self (k : String) (v : GoVal) (m : CMap) :
    cmLookup k (cmInsert k v m) = some v := by
  simp [cmInsert, cmLookup]

theorem strJoin_nil : String.join [] = "" := rfl

theorem strJoin_cons (x : String) (xs : List String) :
    String.join (x :: xs) = x ++ String.join xs := by
  have h : ∀ (l : List String) (a : String),
      l.foldl (fun acc s => acc ++ s) a = a ++ l.foldl (fun acc s => acc ++ s) "" := by
    intro l
    induction l with
    | nil => intro a; simp
    | cons y ys ih =>
      intro a
      simp only [List.foldl_cons]
      rw [ih (a ++ y), ih ("" ++ y)]
      simp [String.append_assoc]
  show (x :: xs).foldl (fun acc s => acc ++ s) "" = x ++ xs.foldl (fun acc s => acc ++ s) ""
  simp only [List.foldl_cons]
  rw [h xs ("" ++ x)]
  simp

theorem scratchFoldAux (steps : List AgentStep) (a : String) :
    steps.foldl
      (fun scratchPad step =>
        scratchPad ++ step.action.log ++ "\nObservation: " ++ step.observation ++ "\nThought:")
      a
      = a ++ String.join (steps.map stepFmt) := by
  induction steps generalizing a with
  | nil => simp [strJoin_nil]
  | cons s ss ih =>
    simp only [List.foldl_cons, List.map_cons]
    rw [ih, strJoin_cons, stepFmt]
    simp [String.append_assoc]

/-! ### C10 -/

/-- C10: the `Simple` tokenizer returns a token count of `0` and an empty
(`nil`) token-ID list with no error for every text and message sequence,
and the SageMaker-endpoint and Cohere models install it by default, so
they report `0` tokens for any input. -/
theorem c10_simple_tokenizer :
    (∀ text, simpleTokenizer.getTokenIDs text = .ok []
      ∧ simpleTokenizer.getNumTokens text = .ok 0)
    ∧ (∀ msgs, simpleTokenizer.getNumTokensFromMessage msgs = .ok 0)
    ∧ (∀ endpointName text,
        (newSagemakerEndpoint endpointName).tokenizer.getNumTokens text = .ok 0
        ∧ (newSagemakerEndpoint endpointName).tokenizer.getTokenIDs text = .ok [])
    ∧ (∀ modelOverride text,
        (newCohere modelOverride).tokenizer.getNumTokens text = .ok 0
        ∧ (newCohere modelOverride).tokenizer.getTokenIDs text = .ok []) :=
  ⟨fun _ => ⟨rfl, rfl⟩, fun _ => rfl, fun _ _ => ⟨rfl, rfl⟩, fun _ _ => ⟨rfl, rfl⟩⟩

/-! ### C9 -/

/-- C9: the scratchpad injected (under `"agentScratchpad"`) into the next
`Plan` chain call is the concatenation, in step order, of each step's
action log followed by `"\nObservation: <observation>\nThought:"`, and it
is empty for an empty history. -/
theorem c9_scratchpad :
    (∀ steps, constructScratchPad steps = String.join (steps.map stepFmt))
    ∧ constructScratchPad [] = ""
    ∧ (∀ inputs steps, cmLookup "agentScratchpad" (planFullInputs inputs steps)
        = some (.str (constructScratchPad steps))) := by
  refine ⟨?_, rfl, ?_⟩
  · intro steps
    rw [constructScratchPad, scratchFoldAux steps ""]
    simp
  · intro inputs steps
    exact cmLookup_insert_self _ _ _

/-! ### C3 -/

/-- C3 counterexample: rendering the one-variable template
`\x7b\x7b.query\x7d\x7d` with an empty variables map does **not** fail
with a missing-variable error — `Formatter.Render` succeeds and
substitutes the `text/template` placeholder `<no value>`. -/
theorem c3_counterexample :
    formatterRender [TplNode.field "query"] [] = .ok "<no value>"
    ∧ exIsOk (formatterRender [TplNode.field "query"] []) = true :=
  ⟨rfl, rfl⟩

/-- C3 (amended): rendering never fails; a template field whose variable
is supplied renders to that value exactly, and a field absent from the
variables map renders as the literal `<no value>` with no error. -/
theorem c3_render_amended :
    (∀ nodes values, ∃ s, formatterRender nodes values = .ok s)
    ∧ (∀ name values v, cmLookup name values = some (.str v) →
        formatterRender [TplNode.field name] values = .ok v)
    ∧ (∀ name values, cmLookup name values = none →
        formatterRender [TplNode.field name] values = .ok "<no value>") := by
  refine ⟨fun nodes values => ⟨renderTpl nodes values, rfl⟩, ?_, ?_⟩
  · intro name values v h
    simp [formatterRender, renderTpl, h, printGoVal]
  · intro name values h
    simp [formatterRender, renderTpl, h]

/-- C3 witness: the amended theorem at the spec's concrete inputs. -/
theorem c3_render_amended_witness :
    formatterRender [TplNode.field "query"] [("query", GoVal.str "x")] = .ok "x"
    ∧ formatterRender [TplNode.field "query"] [] = .ok "<no value>" :=
  ⟨c3_render_amended.2.1 "query" [("query", GoVal.str "x")] "x" rfl,
   c3_render_amended.2.2 "query" [] rfl⟩

/-! ### C2 -/

/-- C2: for every chain, calling it through the chain-call protocol with a
values map lacking one of its declared input keys yields an
`InvalidInputValues` error and runs the chain-specific transformation
(hence the underlying model) zero times; and the `LLMChain`'s input keys
are exactly its prompt template's variables. -/
theorem c2_chain_missing_key :
    (∀ (c : ChainM) (inputs : CMap) (k : String),
       k ∈ c.inputKeys → cmLookup k inputs = none →
       (∃ m, (chainCall c inputs).1 = .error (.invalidInputValues m))
         ∧ (chainCall c inputs).2 = 0)
    ∧ (∀ llm tplNodes outputKey,
        (llmChainM llm tplNodes outputKey).inputKeys = inputVariables tplNodes) := by
  refine ⟨?_, fun _ _ _ => rfl⟩
  intro c inputs k hk hmiss
  have hsome : (firstMissingKey c.inputKeys inputs).isSome := by
    rw [firstMissingKey, List.find?_isSome]
    exact ⟨k, hk, by simp [hmiss]⟩
  obtain ⟨k', hk'⟩ := Option.isSome_iff_exists.mp hsome
  refine ⟨⟨"missing key in input values: " ++ k', ?_⟩, ?_⟩
  · simp [chainCall, hk']
  · simp [chainCall, hk']

/-- C2 witness: an `LLMChain` over the template `\x7b\x7b.query\x7d\x7d`
called with an empty values map. -/
theorem c2_chain_missing_key_witness :
    (∃ m, (chainCall (llmChainM id [TplNode.field "query"] "text") []).1
        = .error (.invalidInputValues m))
    ∧ (chainCall (llmChainM id [TplNode.field "query"] "text") []).2 = 0 :=
  c2_chain_missing_key.1 (llmChainM id [TplNode.field "query"] "text") [] "query"
    (by simp [llmChainM, inputVariables]) rfl

/-! ### C7 -/

/-- C7 counterexample: constructing a Bedrock input/output adapter for an
unsupported provider succeeds (the constructor stores the identifier and
has no failure path), and the `unsupported provider` error surfaces only
when `PrepareInput` is called. -/
theorem c7_counterexample :
    newBedrockInputOutputAdapter "unknown" = { provider := "unknown" }
    ∧ prepareInput "unknown" "Hello" [] = .error (.unsupportedProvider "unknown") :=
  ⟨rfl, rfl⟩

/-- C7 (amended): an unknown provider identifier is **not** rejected at
construction time; `PrepareInput` (and `PrepareOutput`) return the
`unsupported provider` error at call time for providers outside the
supported set, and never return it for the seven supported providers. -/
theorem c7_provider_dispatch_amended :
    (∀ provider, provider ∉ bedrockSupportedProviders →
       ∀ prompt params,
         prepareInput provider prompt params = .error (.unsupportedProvider provider))
    ∧ (∀ provider, provider ∈ bedrockSupportedProviders →
       ∀ prompt params, ∃ body, prepareInput provider prompt params = .ok body)
    ∧ (∀ dec, goodOutputDecoders dec →
       ∀ provider, provider ∈ bedrockSupportedProviders →
       ∀ response p,
         prepareOutput dec provider response ≠ .error (.unsupportedProvider p)) := by
  refine ⟨?_, ?_, ?_⟩
  · intro provider hns prompt params
    unfold prepareInput
    split <;> simp_all [bedrockSupportedProviders]
  · intro provider hmem prompt params
    simp only [bedrockSupportedProviders, List.mem_cons, List.not_mem_nil, or_false] at hmem
    rcases hmem with rfl | rfl | rfl | rfl | rfl | rfl | rfl <;> exact ⟨_, rfl⟩
  · intro dec hgood provider hmem response p
    obtain ⟨h1, h2, h3, h4, h5, h6, h7⟩ := hgood
    simp only [bedrockSupportedProviders, List.mem_cons, List.not_mem_nil, or_false] at hmem
    rcases hmem with rfl | rfl | rfl | rfl | rfl | rfl | rfl
    · exact h1 response p
    · exact h2 response p
    · exact h3 response p
    · exact h4 response p
    · exact h5 response p
    · exact h6 response p
    · exact h7 response p

/-- C7 witness: the amended theorem at concrete providers. -/
theorem c7_provider_dispatch_amended_witness :
    prepareInput "foo" "Hello" [] = .error (.unsupportedProvider "foo")
    ∧ (∃ body, prepareInput "anthropic" "Hello" [] = .ok body)
    ∧ prepareOutput trivialOutputDecoders "anthropic" "resp"
        ≠ .error (.unsupportedProvider "anthropic") :=
  ⟨c7_provider_dispatch_amended.1 "foo" (by decide) "Hello" [],
   c7_provider_dispatch_amended.2.1 "anthropic" (by decide) "Hello" [],
   c7_provider_dispatch_amended.2.2 trivialOutputDecoders
     ⟨fun _ _ h => Except.noConfusion h, fun _ _ h => Except.noConfusion h,
      fun _ _ h => Except.noConfusion h, fun _ _ h => Except.noConfusion h,
      fun _ _ h => Except.noConfusion h, fun _ _ h => Except.noConfusion h,
      fun _ _ h => Except.noConfusion h⟩
     "anthropic" (by decide) "resp" "anthropic"⟩

/-! ### C8 -/

/-- C8 counterexample: supplying a stop sequence for the `meta` provider
(which has no entry in `providerStopSequenceKeyMap`) makes
`Bedrock.Generate` return an error instead of silently dropping the
option. -/
theorem c8_counterexample :
    bedrockGenerate trivialStreamDecoders trivialOutputDecoders trivialClient
      "meta.llama2-70b-v1" [] false "Hello" ["stop"]
      = .error (.stopKeyNotSupported "meta") :=
  rfl

/-- C8 (amended): non-empty stop sequences are passed through under the
provider's stop-sequence key when the provider has one, and make
`Generate` return a `stop sequence key ... not supported` error when it
does not (`meta`, `cohere-r`); they are not silently dropped. -/
theorem c8_stop_sequences_amended :
    ∀ sdec odec client modelID params streamF prompt stop,
      stop ≠ ([] : List String) →
      (ssLookup (getProvider modelID) providerStopSequenceKeyMap = none →
        bedrockGenerate sdec odec client modelID params streamF prompt stop
          = .error (.stopKeyNotSupported (getProvider modelID)))
      ∧ (∀ key, ssLookup (getProvider modelID) providerStopSequenceKeyMap = some key →
        bedrockGenerate sdec odec client modelID params streamF prompt stop
          = bedrockGenerate sdec odec client modelID
              (cmInsert key (.list (stop.map GoVal.str)) params) streamF prompt []) := by
  intro sdec odec client modelID params streamF prompt stop hstop
  constructor
  · intro hnone
    simp [bedrockGenerate, hstop, hnone, Bind.bind, Except.bind]
  · intro key hkey
    simp [bedrockGenerate, hstop, hkey, Bind.bind, Except.bind, Pure.pure, Except.pure]

/-- C8 witness: the amended theorem at `meta` (error) and `anthropic`
(pass-through). -/
theorem c8_stop_sequences_amended_witness :
    bedrockGenerate trivialStreamDecoders trivialOutputDecoders trivialClient
      "meta.llama2-70b-v1" [] false "Hello" ["halt"]
      = .error (.stopKeyNotSupported (getProvider "meta.llama2-70b-v1"))
    ∧ bedrockGenerate trivialStreamDecoders trivialOutputDecoders trivialClient
      "anthropic.claude-v2" [] false "Hello" ["halt"]
      = bedrockGenerate trivialStreamDecoders trivialOutputDecoders trivialClient
          "anthropic.claude-v2"
          (cmInsert "stop_sequences" (.list (["halt"].map GoVal.str)) []) false "Hello" [] :=
  ⟨(c8_stop_sequences_amended trivialStreamDecoders trivialOutputDecoders trivialClient
      "meta.llama2-70b-v1" [] false "Hello" ["halt"] (List.cons_ne_nil _ _)).1 rfl,
   (c8_stop_sequences_amended trivialStreamDecoders trivialOutputDecoders trivialClient
      "anthropic.claude-v2" [] false "Hello" ["halt"] (List.cons_ne_nil _ _)).2
     "stop_sequences" rfl⟩

/-! ### C6 -/

theorem wrap32_eq_of_range (n : Int) (h1 : -(2 ^ 31) ≤ n) (h2 : n < 2 ^ 31) :
    wrap32 n = n := by
  unfold wrap32
  omega

theorem foldl_add32_exact (xs : List Int) (a : Int) (ha : 0 ≤ a)
    (hnn : ∀ x ∈ xs, 0 ≤ x) (hsum : a + xs.sum < 2 ^ 31) :
    xs.foldl add32 a = a + xs.sum := by
  induction xs generalizing a with
  | nil => simp
  | cons x xs ih =>
    simp only [List.sum_cons] at hsum
    simp only [List.foldl_cons, List.sum_cons]
    have hx : 0 ≤ x := hnn x (by simp)
    have hxs : ∀ y ∈ xs, 0 ≤ y := fun y hy => hnn y (by simp [hy])
    have hsum' : 0 ≤ xs.sum := List.sum_nonneg hxs
    have hadd : add32 a x = a + x := by
      unfold add32
      exact wrap32_eq_of_range _ (by omega) (by omega)
    rw [hadd, ih (a + x) (by omega) hxs (by omega)]
    omega

theorem streamFold_spec (sdec : BedrockStreamDecoders) (provider : String)
    (events : List String) (outs : List StreamOut)
    (hdec : List.Forall₂
      (fun ev out => prepareStreamOutput sdec provider ev = .ok out) events outs) :
    ∀ ts a b, streamFold sdec provider events (ts, a, b)
      = .ok (ts ++ outs.map (fun o => o.token),
             (outs.map (fun o => o.inputTokens)).foldl add32 a,
             (outs.map (fun o => o.outputTokens)).foldl add32 b) := by
  induction hdec with
  | nil => intro ts a b; simp [streamFold]
  | cons hrel hrest ih =>
    intro ts a b
    simp only [streamFold, hrel, Bind.bind, Except.bind, List.map_cons, List.foldl_cons]
    rw [ih]
    simp [List.append_assoc]

/-- C6: in streaming mode, `Bedrock.Generate` returns a completion equal
to the concatenation of the streamed token fragments in arrival order,
and reported `input_tokens` / `output_tokens` equal the sums of the
per-chunk deltas (exactly, provided the `int32` counters do not
overflow). -/
theorem c6_stream_accumulation
    (sdec : BedrockStreamDecoders) (odec : BedrockOutputDecoders) (client : BedrockClientM)
    (modelID : String) (params : CMap) (prompt : String) (body : GoVal)
    (events : List String) (outs : List StreamOut)
    (hbody : prepareInput (getProvider modelID) prompt params = .ok body)
    (hclient : client.invokeStream body = .ok events)
    (hdec : List.Forall₂
      (fun ev out => prepareStreamOutput sdec (getProvider modelID) ev = .ok out)
      events outs)
    (hin : ∀ o ∈ outs, 0 ≤ o.inputTokens)
    (hout : ∀ o ∈ outs, 0 ≤ o.outputTokens)
    (hinsum : (outs.map (fun o => o.inputTokens)).sum < 2 ^ 31)
    (houtsum : (outs.map (fun o => o.outputTokens)).sum < 2 ^ 31) :
    bedrockGenerate sdec odec client modelID params true prompt []
      = .ok { generations := [{ text := String.join (outs.map (fun o => o.token)) }]
              llmOutput :=
                [("input_tokens", .int ((outs.map (fun o => o.inputTokens)).sum)),
                 ("output_tokens", .int ((outs.map (fun o => o.outputTokens)).sum))] } := by
  have hfold := streamFold_spec sdec (getProvider modelID) events outs hdec [] 0 0
  have hinm : ∀ x ∈ outs.map (fun o => o.inputTokens), (0 : Int) ≤ x := by
    intro x hx
    obtain ⟨o, ho, rfl⟩ := List.mem_map.mp hx
    exact hin o ho
  have houtm : ∀ x ∈ outs.map (fun o => o.outputTokens), (0 : Int) ≤ x := by
    intro x hx
    obtain ⟨o, ho, rfl⟩ := List.mem_map.mp hx
    exact hout o ho
  have hfin : (outs.map (fun o => o.inputTokens)).foldl add32 0
      = (outs.map (fun o => o.inputTokens)).sum := by
    rw [foldl_add32_exact _ 0 le_rfl hinm (by omega)]
    omega
  have hfout : (outs.map (fun o => o.outputTokens)).foldl add32 0
      = (outs.map (fun o => o.outputTokens)).sum := by
    rw [foldl_add32_exact _ 0 le_rfl houtm (by omega)]
    omega
  rw [hfin, hfout] at hfold
  simp only [bedrockGenerate, hbody, hclient, Bind.bind, Except.bind, Pure.pure, Except.pure,
    reduceIte]
  rw [hfold]
  simp

/-- C6 witness: chunks `["Hel", "lo"]` with per-chunk deltas `(5, 1)`
accumulate to `"Hello"` with usage `(10, 2)`. -/
theorem c6_stream_accumulation_witness :
    bedrockGenerate demoStreamDecoders trivialOutputDecoders demoStreamClient
      "amazon.titan-text-lite-v1" [] true "Hi" []
      = .ok { generations := [{ text := "Hello" }]
              llmOutput := [("input_tokens", .int 10), ("output_tokens", .int 2)] } :=
  c6_stream_accumulation demoStreamDecoders trivialOutputDecoders demoStreamClient
    "amazon.titan-text-lite-v1" [] "Hi"
    (.obj [("inputText", .str "Hi"), ("textGenerationConfig", .obj [])])
    ["Hel", "lo"]
    [{ token := "Hel", inputTokens := 5, outputTokens := 1 },
     { token := "lo", inputTokens := 5, outputTokens := 1 }]
    rfl rfl
    (List.Forall₂.cons rfl (List.Forall₂.cons rfl List.Forall₂.nil))
    (by decide) (by decide) (by decide) (by decide)

/-! ### C1 -/

theorem exBind_ok {α β : Type} (a : α) (f : α → Except GoErr β) :
    (Except.ok a >>= f) = f a := rfl

theorem exBind_err {α β : Type} (e : GoErr) (f : α → Except GoErr β) :
    ((Except.error e : Except GoErr α) >>= f) = Except.error e := rfl

theorem exMap_ok {α β : Type} (f : α → β) (a : α) :
    Except.map f (Except.ok a : Except GoErr α) = Except.ok (f a) := rfl

theorem exMap_err {α β : Type} (f : α → β) (e : GoErr) :
    Except.map f (Except.error e : Except GoErr α) = Except.error e := rfl

theorem exPure_eq {α : Type} (a : α) : (pure a : Except GoErr α) = Except.ok a := rfl

theorem refineLoop_eq_foldlM (refineP : CMap → Except GoErr String) (opts : RefineOpts)
    (rest : CMap) (ds : List GoDoc) :
    ∀ res, refineLoop refineP opts rest res ds
      = ds.foldlM (fun acc d => constructRefineInputs opts d acc rest >>= refineP) res := by
  induction ds with
  | nil => intro res; simp [refineLoop, exPure_eq]
  | cons d ds ih =>
    intro res
    simp only [refineLoop, List.foldlM_cons]
    cases hci : constructRefineInputs opts d res rest with
    | error e => simp [exBind_err]
    | ok ri =>
      simp only [exBind_ok]
      cases hrp : refineP ri with
      | error e => simp [hrp, exBind_err]
      | ok r' => simp [hrp, exBind_ok, ih r']

/-- C1: on a non-empty document list the refine chain returns, under its
output key, exactly the left fold — the initial sub-chain on the first
document's rendered inputs, then each subsequent document's rendered
inputs plus the running answer through the refine sub-chain, in document
order; on an empty document list it returns an `InvalidInputValues`
error. -/
theorem c1_refine_fold :
    (∀ (initP refineP : CMap → Except GoErr String) (opts : RefineOpts) values d0 ds,
       cmLookup opts.inputKey values = some (.docs (d0 :: ds)) →
       refineCall initP refineP opts values
         = Except.map (fun res => [(opts.outputKey, GoVal.str res)])
             (manualRefineFold initP refineP opts (cmErase opts.inputKey values) d0 ds))
    ∧ (∀ (initP refineP : CMap → Except GoErr String) (opts : RefineOpts) values,
       cmLookup opts.inputKey values = some (.docs []) →
       refineCall initP refineP opts values
         = .error (.invalidInputValues "documents slice has no elements")) := by
  constructor
  · intro initP refineP opts values d0 ds hv
    simp only [refineCall, hv, manualRefineFold]
    cases hci : constructInitialInputs opts d0 (cmErase opts.inputKey values) with
    | error e => simp [exBind_err, exMap_err]
    | ok ii =>
      simp only [exBind_ok]
      cases hip : initP ii with
      | error e => simp [hip, exBind_err, exMap_err]
      | ok res =>
        simp only [hip, exBind_ok]
        rw [refineLoop_eq_foldlM]
        cases hfl : ds.foldlM
            (fun acc d => constructRefineInputs opts d acc (cmErase opts.inputKey values)
              >>= refineP) res with
        | error e => simp [hfl, exBind_err, exMap_err]
        | ok res' => simp [hfl, exBind_ok, exMap_ok]
  · intro initP refineP opts values hv
    simp only [refineCall, hv]

/-- C1 witness: three documents and deterministic sub-chains; the final
answer is the manual fold `R(R(I(DocA),DocB),DocC)`, and the empty
document list errors. -/
theorem c1_refine_fold_witness :
    refineCall demoInitPredict demoRefinePredict refineDefaultOpts demoDocsValues
      = Except.map (fun res => [(refineDefaultOpts.outputKey, GoVal.str res)])
          (manualRefineFold demoInitPredict demoRefinePredict refineDefaultOpts
            (cmErase refineDefaultOpts.inputKey demoDocsValues)
            (.mk "DocA" []) [.mk "DocB" [], .mk "DocC" []])
    ∧ refineCall demoInitPredict demoRefinePredict refineDefaultOpts demoDocsValues
        = .ok [("text", GoVal.str "R(R(I(DocA),DocB),DocC)")]
    ∧ refineCall demoInitPredict demoRefinePredict refineDefaultOpts
        [("inputDocuments", GoVal.docs [])]
        = .error (.invalidInputValues "documents slice has no elements") :=
  ⟨c1_refine_fold.1 demoInitPredict demoRefinePredict refineDefaultOpts demoDocsValues
      (.mk "DocA" []) [.mk "DocB" [], .mk "DocC" []] rfl,
   rfl,
   c1_refine_fold.2 demoInitPredict demoRefinePredict refineDefaultOpts
     [("inputDocuments", GoVal.docs [])] rfl⟩

/-! ### C5 -/

theorem tryWs_some (k : List Char → Option (List String)) (cs : List Char) :
    ∀ n gs, tryWs k cs n = some gs → ∃ m, k (cs.drop m) = some gs := by
  intro n
  induction n with
  | zero =>
    intro gs h
    exact ⟨0, by simpa [tryWs] using h⟩
  | succ n ih =>
    intro gs h
    simp only [tryWs] at h
    cases hk : k (cs.drop (n + 1)) with
    | some gs' =>
      rw [hk] at h
      cases h
      exact ⟨n + 1, hk⟩
    | none =>
      rw [hk] at h
      exact ih gs h

theorem tryGrp_some (k : List Char → Option (List String)) (cs : List Char) :
    ∀ n gs, tryGrp k cs n = some gs →
      ∃ m gs', gs = String.mk (cs.take m) :: gs' ∧ k (cs.drop m) = some gs' := by
  intro n
  induction n with
  | zero => intro gs h; simp [tryGrp] at h
  | succ n ih =>
    intro gs h
    simp only [tryGrp] at h
    cases hk : k (cs.drop (n + 1)) with
    | some gs' =>
      rw [hk] at h
      cases h
      exact ⟨n + 1, gs', rfl, hk⟩
    | none =>
      rw [hk] at h
      exact ih gs h

theorem matchToks_length (toks : List RTok) :
    ∀ cs gs, matchToks toks cs = some gs → gs.length = countGrp toks := by
  induction toks with
  | nil =>
    intro cs gs h
    simp only [matchToks] at h
    cases h
    rfl
  | cons t ts ih =>
    cases t with
    | lit s =>
      intro cs gs h
      simp only [matchToks] at h
      by_cases hp : s.isPrefixOf cs
      · rw [if_pos hp] at h
        exact ih _ _ h
      · rw [if_neg hp] at h
        cases h
    | ws =>
      intro cs gs h
      obtain ⟨m, hk⟩ := tryWs_some _ _ _ _ h
      exact ih _ _ hk
    | grp =>
      intro cs gs h
      obtain ⟨m, gs', rfl, hk⟩ := tryGrp_some _ _ _ _ h
      simp only [List.length_cons, countGrp]
      rw [ih _ _ hk]

theorem findMatch_length (toks : List RTok) :
    ∀ cs gs, findMatch toks cs = some gs → gs.length = countGrp toks := by
  intro cs
  induction cs with
  | nil =>
    intro gs h
    exact matchToks_length _ _ _ h
  | cons c cs ih =>
    intro gs h
    simp only [findMatch] at h
    cases hm : matchToks toks (c :: cs) with
    | some gs' =>
      rw [hm] at h
      cases h
      exact matchToks_length _ _ _ hm
    | none =>
      rw [hm] at h
      exact ih _ h

/-- C5: on output without the terminal marker, the parser returns exactly
one `AgentAction` carrying the (trimmed) capture groups of the
`Action:`/`Action Input:` pattern when the pattern matches, and an
`UnableToParseOutput` error — no action, no finish — when it does not;
with the spec's concrete examples. -/
theorem c5_action_parse :
    (∀ outputKey output, containsSub finalAnswerAction.data output.data = false →
       (∀ gs, findMatch mrklToks output.data = some gs →
          ∃ g1 g2, gs = [g1, g2]
            ∧ parseOutput outputKey output
              = .ok ([{ tool := goTrim g1, toolInput := goTrim g2, log := output }], none))
       ∧ (findMatch mrklToks output.data = none →
           parseOutput outputKey output = .error (.unableToParseOutput output)))
    ∧ parseOutput "output" "Action: search\nAction Input: capital of France"
        = .ok ([{ tool := "search", toolInput := "capital of France",
                  log := "Action: search\nAction Input: capital of France" }], none)
    ∧ parseOutput "output" "I have no idea"
        = .error (.unableToParseOutput "I have no idea") := by
  refine ⟨?_, rfl, rfl⟩
  intro outputKey output hc
  constructor
  · intro gs hgs
    have hlen := findMatch_length mrklToks output.data gs hgs
    match gs, hlen with
    | [g1, g2], _ =>
      refine ⟨g1, g2, rfl, ?_⟩
      simp [parseOutput, hc, hgs]
  · intro hnone
    simp [parseOutput, hc, hnone]

/-- C5 witness: the general statement at a concrete unparsable output. -/
theorem c5_action_parse_witness :
    parseOutput "output" "The capital of France is a city"
      = .error (.unableToParseOutput "The capital of France is a city") :=
  (c5_action_parse.1 "output" "The capital of France is a city" rfl).2 rfl

/-! ### C4

`parseOutput` computes the finish value as the last element of
`strings.Split(output, "Final Answer:")`.  Because the marker has no
non-trivial border, its occurrences are pairwise disjoint and the scanning
split passes through the absolute last occurrence, so that last element is
exactly the suffix after the last occurrence of the marker. -/

theorem occursAt_cons_succ (M : List Char) (c : Char) (cs : List Char) (i : Nat) :
    occursAt M (c :: cs) (i + 1) ↔ occursAt M cs i := by
  simp [occursAt]

theorem occursAt_zero (M cs : List Char) :
    occursAt M cs 0 ↔ M.isPrefixOf cs := by
  simp [occursAt]

theorem occursAt_drop (M cs : List Char) (n r : Nat) :
    occursAt M (cs.drop n) r ↔ occursAt M cs (n + r) := by
  simp [occursAt, List.drop_drop]

theorem prefixOf_nil_eq (M : List Char) (h : M.isPrefixOf ([] : List Char) = true) :
    M = [] := by
  cases M with
  | nil => rfl
  | cons c cs => simp [List.isPrefixOf] at h

theorem containsSub_iff (M : List Char) :
    ∀ cs, containsSub M cs = true ↔ ∃ i, occursAt M cs i := by
  intro cs
  induction cs with
  | nil =>
    simp only [containsSub]
    constructor
    · intro h; exact ⟨0, by simpa [occursAt] using h⟩
    · rintro ⟨i, hi⟩; simpa [occursAt] using hi
  | cons c cs ih =>
    simp only [containsSub, Bool.or_eq_true]
    constructor
    · rintro (h | h)
      · exact ⟨0, (occursAt_zero _ _).mpr h⟩
      · obtain ⟨i, hi⟩ := ih.mp h
        exact ⟨i + 1, (occursAt_cons_succ _ _ _ _).mpr hi⟩
    · rintro ⟨i, hi⟩
      cases i with
      | zero => exact Or.inl ((occursAt_zero _ _).mp hi)
      | succ i' => exact Or.inr (ih.mpr ⟨i', (occursAt_cons_succ _ _ _ _).mp hi⟩)

theorem lastOccAux_none (M : List Char) :
    ∀ cs, lastOccAux M cs = none → ∀ j, ¬ occursAt M cs j := by
  intro cs
  induction cs with
  | nil =>
    intro h j hj
    simp only [lastOccAux] at h
    by_cases hp : M.isPrefixOf ([] : List Char)
    · rw [if_pos hp] at h; cases h
    · exact hp (by simpa [occursAt] using hj)
  | cons c cs ih =>
    intro h j hj
    simp only [lastOccAux] at h
    cases hl : lastOccAux M cs with
    | some i' => rw [hl] at h; cases h
    | none =>
      rw [hl] at h
      by_cases hp : M.isPrefixOf (c :: cs)
      · rw [if_pos hp] at h; cases h
      · cases j with
        | zero => exact hp ((occursAt_zero _ _).mp hj)
        | succ j' => exact ih hl j' ((occursAt_cons_succ _ _ _ _).mp hj)

theorem lastOccAux_some (M : List Char) (hM : M ≠ []) :
    ∀ cs i, lastOccAux M cs = some i →
      occursAt M cs i ∧ ∀ j, occursAt M cs j → j ≤ i := by
  intro cs
  induction cs with
  | nil =>
    intro i h
    simp only [lastOccAux] at h
    by_cases hp : M.isPrefixOf ([] : List Char)
    · exact absurd (prefixOf_nil_eq M hp) hM
    · rw [if_neg hp] at h; cases h
  | cons c cs ih =>
    intro i h
    simp only [lastOccAux] at h
    cases hl : lastOccAux M cs with
    | some i' =>
      rw [hl] at h
      cases h
      obtain ⟨ho, hmax⟩ := ih i' hl
      refine ⟨(occursAt_cons_succ _ _ _ _).mpr ho, ?_⟩
      intro j hj
      cases j with
      | zero => exact Nat.zero_le _
      | succ j' =>
        exact Nat.succ_le_succ (hmax j' ((occursAt_cons_succ _ _ _ _).mp hj))
    | none =>
      rw [hl] at h
      by_cases hp : M.isPrefixOf (c :: cs)
      · rw [if_pos hp] at h
        cases h
        refine ⟨(occursAt_zero _ _).mpr hp, ?_⟩
        intro j hj
        cases j with
        | zero => exact le_rfl
        | succ j' =>
          exact absurd ((occursAt_cons_succ _ _ _ _).mp hj) (lastOccAux_none M cs hl j')
      · rw [if_neg hp] at h; cases h

theorem lastOccAux_eq_some (M : List Char) (hM : M ≠ []) (cs : List Char) (i : Nat)
    (hocc : occursAt M cs i) (hmax : ∀ j, occursAt M cs j → j ≤ i) :
    lastOccAux M cs = some i := by
  cases hl : lastOccAux M cs with
  | none => exact absurd hocc (lastOccAux_none M cs hl i)
  | some i' =>
    obtain ⟨ho', hmax'⟩ := lastOccAux_some M hM cs i' hl
    have h1 := hmax i' ho'
    have h2 := hmax' i hocc
    exact congrArg some (Nat.le_antisymm h1 h2)

theorem borderless_disjoint (M : List Char) (hb : borderless M) (cs : List Char) (i j : Nat)
    (hi : occursAt M cs i) (hj : occursAt M cs j) (hij : i < j) (hover : j < i + M.length) :
    False := by
  obtain ⟨r, hr⟩ := List.isPrefixOf_iff_prefix.mp hi
  obtain ⟨r', hr'⟩ := List.isPrefixOf_iff_prefix.mp hj
  have ht1 : 0 < j - i := by omega
  have ht2 : j - i < M.length := by omega
  have hdj : cs.drop j = (cs.drop i).drop (j - i) := by
    rw [List.drop_drop]
    congr 1
    omega
  have key : M ++ r' = M.drop (j - i) ++ r := by
    rw [hr', hdj, ← hr, List.drop_append_eq_append_drop,
      show j - i - M.length = 0 by omega, List.drop_zero]
  have h2 : M.take (M.length - (j - i)) = M.drop (j - i) := by
    have hcong := congrArg (List.take (M.length - (j - i))) key
    rw [List.take_append_eq_append_take, List.take_append_eq_append_take,
      show M.length - (j - i) - M.length = 0 by omega, List.take_zero,
      show M.length - (j - i) - (M.drop (j - i)).length = 0 by
        rw [List.length_drop]; omega,
      List.take_zero, List.append_nil, List.append_nil,
      show M.length - (j - i) = (M.drop (j - i)).length by rw [List.length_drop],
      List.take_length] at hcong
    rw [List.length_drop] at hcong
    exact hcong
  exact hb (j - i) ht2 ht1 h2.symm

theorem splitAuxF_nil (M : List Char) (fuel : Nat) (acc : List Char) :
    splitAuxF M fuel acc [] = [acc.reverse] := by
  cases fuel <;> simp [splitAuxF]

theorem splitAuxF_cons (M : List Char) (fuel : Nat) (acc : List Char) (c : Char)
    (cs : List Char) :
    splitAuxF M (fuel + 1) acc (c :: cs)
      = if M.isPrefixOf (c :: cs) then
          acc.reverse :: splitAuxF M fuel [] (List.drop (M.length - 1) cs)
        else
          splitAuxF M fuel (c :: acc) cs := by
  simp [splitAuxF]

theorem splitAuxF_ne_nil (M : List Char) :
    ∀ (n : Nat) (cs : List Char) (acc : List Char), splitAuxF M n acc cs ≠ [] := by
  intro n
  induction n with
  | zero =>
    intro cs acc
    cases cs <;> simp [splitAuxF]
  | succ n ih =>
    intro cs acc
    cases cs with
    | nil => simp [splitAuxF_nil]
    | cons c cs' =>
      rw [splitAuxF_cons]
      by_cases hp : M.isPrefixOf (c :: cs')
      · rw [if_pos hp]; simp
      · rw [if_neg hp]
        exact ih cs' (c :: acc)

theorem splitAuxF_no_occ (M : List Char) :
    ∀ (n : Nat) (cs : List Char), (∀ i, ¬ occursAt M cs i) →
      ∀ acc, splitAuxF M n acc cs = [acc.reverse ++ cs] := by
  intro n
  induction n with
  | zero =>
    intro cs _ acc
    cases cs <;> simp [splitAuxF]
  | succ n ih =>
    intro cs hno acc
    cases cs with
    | nil => simp [splitAuxF_nil]
    | cons c cs' =>
      rw [splitAuxF_cons]
      have hp : ¬ M.isPrefixOf (c :: cs') := fun hp => hno 0 ((occursAt_zero _ _).mpr hp)
      rw [if_neg hp]
      rw [ih cs' (fun i hi => hno (i + 1) ((occursAt_cons_succ _ _ _ _).mpr hi)) (c :: acc)]
      simp

theorem getLastD_irrel {α : Type} (l : List α) (hl : l ≠ []) (d d' : α) :
    l.getLastD d = l.getLastD d' := by
  obtain ⟨a, t, rfl⟩ := List.exists_cons_of_ne_nil hl
  rw [List.getLastD_cons, List.getLastD_cons]

theorem splitAuxF_last_aux (M : List Char) (hM : M ≠ []) (hb : borderless M) :
    ∀ (n : Nat) (cs : List Char), cs.length ≤ n → ∀ acc i, lastOccAux M cs = some i →
      (splitAuxF M n acc cs).getLastD [] = cs.drop (i + M.length) := by
  have hM1 : 0 < M.length := List.length_pos.mpr hM
  intro n
  induction n with
  | zero =>
    intro cs hlen acc i hlast
    obtain rfl : cs = [] := List.length_eq_zero.mp (Nat.le_zero.mp hlen)
    simp only [lastOccAux] at hlast
    rw [if_neg (fun hp => hM (prefixOf_nil_eq M hp))] at hlast
    cases hlast
  | succ n ih =>
    intro cs hlen acc i hlast
    cases cs with
    | nil =>
      simp only [lastOccAux] at hlast
      rw [if_neg (fun hp => hM (prefixOf_nil_eq M hp))] at hlast
      cases hlast
    | cons c cs' =>
      obtain ⟨hocci, hmax⟩ := lastOccAux_some M hM (c :: cs') i hlast
      rw [splitAuxF_cons]
      by_cases hp : M.isPrefixOf (c :: cs')
      · rw [if_pos hp]
        have hocc0 : occursAt M (c :: cs') 0 := (occursAt_zero _ _).mpr hp
        have hrest : List.drop (M.length - 1) cs' = (c :: cs').drop M.length := by
          conv_rhs => rw [show M.length = (M.length - 1) + 1 by omega, List.drop_succ_cons]
        rw [hrest]
        rcases Nat.eq_zero_or_pos i with rfl | hipos
        · have hnone : ∀ r, ¬ occursAt M ((c :: cs').drop M.length) r := by
            intro r hr
            have h1 := (occursAt_drop M (c :: cs') M.length r).mp hr
            have h2 := hmax _ h1
            omega
          rw [splitAuxF_no_occ M n _ hnone []]
          simp [List.getLastD_cons]
        · have hiM : M.length ≤ i := by
            by_contra hlt
            exact borderless_disjoint M hb (c :: cs') 0 i hocc0 hocci hipos (by omega)
          have hocc' : occursAt M ((c :: cs').drop M.length) (i - M.length) := by
            rw [occursAt_drop]
            rw [show M.length + (i - M.length) = i by omega]
            exact hocci
          have hmax' : ∀ j, occursAt M ((c :: cs').drop M.length) j → j ≤ i - M.length := by
            intro j hj
            have h1 := hmax _ ((occursAt_drop M (c :: cs') M.length j).mp hj)
            omega
          have hlast' := lastOccAux_eq_some M hM _ _ hocc' hmax'
          have hlen' : ((c :: cs').drop M.length).length ≤ n := by
            simp only [List.length_drop, List.length_cons]
            simp only [List.length_cons] at hlen
            omega
          rw [List.getLastD_cons,
            getLastD_irrel _ (splitAuxF_ne_nil M n _ []) (List.reverse acc) [],
            ih _ hlen' [] (i - M.length) hlast', List.drop_drop]
          congr 1
          omega
      · rw [if_neg hp]
        have hocc0f : ¬ occursAt M (c :: cs') 0 := fun h => hp ((occursAt_zero _ _).mp h)
        cases i with
        | zero => exact absurd hocci hocc0f
        | succ i' =>
          have hocc' : occursAt M cs' i' := (occursAt_cons_succ _ _ _ _).mp hocci
          have hmax' : ∀ j, occursAt M cs' j → j ≤ i' := by
            intro j hj
            have h1 := hmax (j + 1) ((occursAt_cons_succ _ _ _ _).mpr hj)
            omega
          have hlast' := lastOccAux_eq_some M hM cs' i' hocc' hmax'
          have hlen' : cs'.length ≤ n := by
            simp only [List.length_cons] at hlen
            omega
          rw [ih cs' hlen' (c :: acc) i' hlast']
          rw [show i' + 1 + M.length = (i' + M.length) + 1 by omega, List.drop_succ_cons]

theorem borderless_finalAnswer : borderless finalAnswerAction.data := by
  unfold borderless
  decide

/-- C4 counterexample: the spec's example is off by the leading space —
the finish value is everything after the marker *verbatim*, i.e.
`" Paris"`, not `"Paris"`. -/
theorem c4_counterexample :
    parseOutput "output" "... Final Answer: Paris"
      = .ok ([], some { returnValues := [("output", .str " Paris")]
                        log := "... Final Answer: Paris" })
    ∧ (" Paris" : String) ≠ "Paris" :=
  ⟨rfl, by decide⟩

/-- C4 (amended): for every output containing `Final Answer:` the parser
returns an `AgentFinish` (no actions, no error) whose value under the
output key is everything after the last occurrence of the marker,
verbatim — so the spec's example yields `" Paris"`, with the leading
space. -/
theorem c4_final_answer_amended :
    ∀ outputKey output i,
      lastOccAux finalAnswerAction.data output.data = some i →
      parseOutput outputKey output
        = .ok ([], some
            { returnValues := [(outputKey, .str
                (String.mk (output.data.drop (i + finalAnswerAction.data.length))))]
              log := output }) := by
  intro outputKey output i hlast
  have hM : finalAnswerAction.data ≠ [] := by decide
  have hocc := (lastOccAux_some _ hM output.data i hlast).1
  have hc : containsSub finalAnswerAction.data output.data = true :=
    (containsSub_iff _ output.data).mpr ⟨i, hocc⟩
  have hsplit := splitAuxF_last_aux finalAnswerAction.data hM borderless_finalAnswer
    output.data.length output.data le_rfl [] i hlast
  simp only [parseOutput, hc, if_true]
  rw [splitSub, hsplit]

/-- C4 witness: the amended theorem at the spec's example text (the last
occurrence of the marker starts at index 4, and the marker is 13
characters long, so the result is the suffix from index 17: `" Paris"`). -/
theorem c4_final_answer_amended_witness :
    parseOutput "output" "... Final Answer: Paris"
      = .ok ([], some
          { returnValues := [("output", .str
              (String.mk ("... Final Answer: Paris".data.drop
                (4 + finalAnswerAction.data.length))))]
            log := "... Final Answer: Paris" }) :=
  c4_final_answer_amended "output" "... Final Answer: Paris" 4 rfl

end Golc
